import Mathlib

/-!
# Verification of the argonaut argument-parsing core

This development embeds the token-classification state machine of
`src/parse.rs` (the `Parse` iterator revision) in Lean and proves or
refutes the specification's claims about it.

Modelling conventions:
* Rust `&str` / `String` become Lean `String`.
* `HashMap` becomes an association list where `insert` prepends and
  lookup returns the first matching entry (same observable behaviour,
  since `insert` overwrites).
* `HashSet` becomes a list with membership testing.
* `Vec::pop` removes the *last* element of a list.
* A Rust panic (`expect`, out-of-bounds indexing) is modelled by the
  `Crash` outcome of `Parse.next`; all normal returns are `.ok`.
-/

namespace Argonaut

/-- A parsed argument (`Arg` in `parse.rs`). -/
inductive Arg where
  /-- The name and value of a found positional. -/
  | Positional (name : String) (value : String)
  /-- The value of a found trail argument. -/
  | TrailPart (value : String)
  /-- The name of a found switch. -/
  | Switch (name : String)
  /-- The name and value of an optional argument. -/
  | Option (name : String) (value : String)
deriving DecidableEq, Repr

/-- The name of an optional argument (`OptName` in `parse.rs`). -/
inductive OptName where
  | Long (name : String)
  | LongAndShort (name : String) (short : Char)
deriving DecidableEq, Repr

/-- The 'long' component of the name (`OptName::borrow_long`). -/
def OptName.borrow_long : OptName → String
  | .Long name => name
  | .LongAndShort name _ => name

/-- The types of argument trails to expect (`TrailType` in `parse.rs`). -/
inductive TrailType where
  | OnePlus
  | ZeroPlus
deriving DecidableEq, Repr

/-- The different argument structures to expect (`DefType` in `parse.rs`).
The `parameter` fields are only used for help messages. -/
inductive DefType where
  | Positional (name : String)
  | Trail (trail : TrailType) (parameter : Option String)
  | Switch (name : OptName)
  | Option (name : OptName) (parameter : Option String)
deriving DecidableEq, Repr

/-- The definition of an argument to expect when parsing (`ArgDef`). -/
structure ArgDef where
  deftype : DefType
  help : Option String := none
deriving DecidableEq, Repr

/-- An error found when defining the expected argument structure
(`DefinitionError` in `parse.rs`). -/
inductive DefinitionError where
  | SameShortName (a b : String)
  | OptionDefinedTwice (name : String)
  | PositionalDefinedTwice (name : String)
  | TwoTrailsDefined
deriving DecidableEq, Repr

/-- The type of an optional argument (`OptType` in `parse.rs`). -/
inductive OptType where
  | Switch
  | Option
deriving DecidableEq, Repr

/-- An error found when parsing (`ParseError` in `parse.rs`). -/
inductive ParseError where
  | MissingPositional (name : String)
  | MissingParameter (name : String)
  | MissingTrail
  | UnexpectedPositional (tok : String)
  | UnexpectedShortArgument (c : Char) (tok : String)
  | UnexpectedLongArgument (tok : String)
  | GroupedNonSwitch (c : Char) (tok : String)
deriving DecidableEq, Repr

/-- A Rust panic reached by the engine: either one of the two
`expect("Invariant broken")` calls, or an out-of-bounds index
(`shorts[0]` on an empty vector, `args[index]` out of range). -/
inductive Crash where
  | invariantBroken
  | outOfBounds
deriving DecidableEq, Repr

/-- `str::starts_with`, computed on the character lists (the prefixes used
by the engine are plain ASCII dashes, so byte and character prefixes agree). -/
def strStartsWith (s p : String) : Bool := p.data.isPrefixOf s.data

/-- Dropping `n` leading characters, modelling the byte slices `&s[2..]` /
`chars().skip(1)` (the dropped prefix is always ASCII dashes). -/
def strDrop (s : String) (n : Nat) : String := ⟨s.data.drop n⟩

/-- First-match association-list lookup, modelling `HashMap::get` under
prepend-style insertion. -/
def assoc {α β : Type} [DecidableEq α] : List (α × β) → α → Option β
  | [], _ => none
  | (k, v) :: rest, key => if k = key then some v else assoc rest key

/-- `Vec::pop`: removes and returns the last element. -/
def vecPop {α : Type} : List α → Option (List α × α)
  | [] => none
  | [a] => some ([], a)
  | a :: b :: rest =>
    match vecPop (b :: rest) with
    | some (front, last) => some (a :: front, last)
    | none => none

/-- A parse of a set of string arguments (`Parse` in `parse.rs`). -/
structure Parse where
  args : List String
  index : Nat
  finished : Bool
  positional : List String
  next_position : Nat
  trail : Option TrailType
  trail_args_found : Nat
  options : List (String × OptType)
  aliases : List (Char × String)
  remaining_grouped_shorts : List (Nat × Char)
deriving DecidableEq, Repr

/-- `Parse::add_name`: registers a long name (and optional short alias),
rejecting duplicates. Returns the updated alias map and used-name set. -/
def add_name (name : OptName) (aliases : List (Char × String))
    (used_names : List String) :
    Except DefinitionError (List (Char × String) × List String) :=
  match name with
  | .Long long =>
    if long ∈ used_names then
      .error (.OptionDefinedTwice long)
    else
      .ok (aliases, long :: used_names)
  | .LongAndShort long short =>
    if long ∈ used_names then
      .error (.OptionDefinedTwice long)
    else
      let used := long :: used_names
      match assoc aliases short with
      | some other_long => .error (.SameShortName long other_long)
      | none => .ok ((short, long) :: aliases, used)

/-- The accumulator state of the definition-compiling loop in `Parse::new`. -/
structure BuildSt where
  options : List (String × OptType)
  positional : List String
  trail : Option TrailType
  aliases : List (Char × String)
  used_names : List String
  used_positional_names : List String
deriving DecidableEq, Repr

/-- The `for def in expected` loop of `Parse::new`. -/
def buildLoop : List ArgDef → BuildSt → Except DefinitionError BuildSt
  | [], st => .ok st
  | d :: rest, st =>
    match d.deftype with
    | .Positional name =>
      if name ∈ st.used_positional_names then
        .error (.PositionalDefinedTwice name)
      else
        buildLoop rest { st with
          positional := st.positional ++ [name],
          used_positional_names := name :: st.used_positional_names }
    | .Trail trail_type _ =>
      if st.trail.isSome then
        .error .TwoTrailsDefined
      else
        buildLoop rest { st with trail := some trail_type }
    | .Switch name =>
      match add_name name st.aliases st.used_names with
      | .error e => .error e
      | .ok (aliases, used) =>
        buildLoop rest { st with
          aliases := aliases, used_names := used,
          options := (name.borrow_long, OptType.Switch) :: st.options }
    | .Option name _ =>
      match add_name name st.aliases st.used_names with
      | .error e => .error e
      | .ok (aliases, used) =>
        buildLoop rest { st with
          aliases := aliases, used_names := used,
          options := (name.borrow_long, OptType.Option) :: st.options }

/-- `Parse::new`: compiles the definitions and starts a parse over `args`. -/
def Parse.new (expected : List ArgDef) (args : List String) :
    Except DefinitionError Parse :=
  match buildLoop expected ⟨[], [], none, [], [], []⟩ with
  | .error e => .error e
  | .ok st =>
    .ok { args := args, index := 0, finished := false,
          positional := st.positional, next_position := 0,
          trail := st.trail, trail_args_found := 0,
          options := st.options, aliases := st.aliases,
          remaining_grouped_shorts := [] }

/-- `Parse::read_option`: emits a switch directly, or consumes the next
token as an option's parameter. The error `MissingParameter` carries the
`name` passed in, which at both call sites is the definition's long name. -/
def Parse.read_option (p : Parse) (name : String) (opt_type : OptType) :
    Except ParseError Arg × Parse :=
  match opt_type with
  | .Switch => (.ok (.Switch name), p)
  | .Option =>
    if p.args.isEmpty then
      (.error (.MissingParameter name), { p with finished := true })
    else
      if h : p.index < p.args.length then
        if strStartsWith (p.args.get ⟨p.index, h⟩) "-" then
          (.error (.MissingParameter name),
           { p with index := p.index + 1, finished := true })
        else
          (.ok (.Option name (p.args.get ⟨p.index, h⟩)),
           { p with index := p.index + 1 })
      else
        (.error (.MissingParameter name), { p with finished := true })

/-- `<Parse as Iterator>::next`: one step of the token scanner.
`.error c` models a Rust panic; `.ok (none, p')` models returning `None`;
`.ok (some r, p')` models returning `Some(r)`. -/
def Parse.next (p : Parse) : Except Crash (Option (Except ParseError Arg) × Parse) :=
  if p.finished then
    .ok (none, p)
  else
    -- Check for extra grouped short arguments from the last parsed argument
    match vecPop p.remaining_grouped_shorts with
    | some (rest, (index, short)) =>
      match assoc p.aliases short with
      | none =>
        match p.args.get? index with
        | none => .error .outOfBounds
        | some tok =>
          .ok (some (.error (.UnexpectedShortArgument short tok)),
               { p with remaining_grouped_shorts := rest, finished := true })
      | some name =>
        match assoc p.options name with
        | none => .error .invariantBroken
        | some OptType.Option =>
          match p.args.get? index with
          | none => .error .outOfBounds
          | some tok =>
            .ok (some (.error (.GroupedNonSwitch short tok)),
                 { p with remaining_grouped_shorts := rest, finished := true })
        | some OptType.Switch =>
          .ok (some (.ok (.Switch name)),
               { p with remaining_grouped_shorts := rest })
    | none =>
      if h : p.index < p.args.length then
        -- Long argument
        if strStartsWith (p.args.get ⟨p.index, h⟩) "--" then
          match assoc p.options (strDrop (p.args.get ⟨p.index, h⟩) 2) with
          | none =>
            .ok (some (.error (.UnexpectedLongArgument (p.args.get ⟨p.index, h⟩))),
                 { p with index := p.index + 1, finished := true })
          | some opt_type =>
            -- the `keys().find(..).unwrap()` succeeds exactly when the
            -- lookup above did, and returns the key equal to `string[2..]`
            .ok (some (Parse.read_option { p with index := p.index + 1 }
                        (strDrop (p.args.get ⟨p.index, h⟩) 2) opt_type).1,
                 (Parse.read_option { p with index := p.index + 1 }
                        (strDrop (p.args.get ⟨p.index, h⟩) 2) opt_type).2)
        -- Short argument
        else if strStartsWith (p.args.get ⟨p.index, h⟩) "-" then
          if (((p.args.get ⟨p.index, h⟩).data.drop 1).map
                (fun ch => (p.index + 1 - 1, ch))).length > 1 then
            -- grouped short args: the queue is stored and the function
            -- falls through to its final `None`
            .ok (none,
                 { p with
                     index := p.index + 1,
                     remaining_grouped_shorts :=
                       (((p.args.get ⟨p.index, h⟩).data.drop 1).map
                         (fun ch => (p.index + 1 - 1, ch))).reverse })
          else
            match (((p.args.get ⟨p.index, h⟩).data.drop 1).map
                    (fun ch => (p.index + 1 - 1, ch))) with
            | [] => .error .outOfBounds
            | (_, short) :: _ =>
              match assoc p.aliases short with
              | none =>
                .ok (some (.error (.UnexpectedShortArgument short
                       (p.args.get ⟨p.index, h⟩))),
                     { p with index := p.index + 1, finished := true })
              | some name =>
                match assoc p.options name with
                | none => .error .invariantBroken
                | some opt_type =>
                  .ok (some (Parse.read_option { p with index := p.index + 1 }
                              name opt_type).1,
                       (Parse.read_option { p with index := p.index + 1 }
                              name opt_type).2)
        -- Positional argument
        else
          if h2 : p.next_position < p.positional.length then
            .ok (some (.ok (.Positional (p.positional.get ⟨p.next_position, h2⟩)
                   (p.args.get ⟨p.index, h⟩))),
                 { p with index := p.index + 1,
                          next_position := p.next_position + 1 })
          else
            match p.trail with
            | some _ =>
              .ok (some (.ok (.TrailPart (p.args.get ⟨p.index, h⟩))),
                   { p with index := p.index + 1,
                            trail_args_found := p.trail_args_found + 1 })
            | none =>
              .ok (some (.error (.UnexpectedPositional (p.args.get ⟨p.index, h⟩))),
                   { p with index := p.index + 1, finished := true })
      -- No more arguments
      else
        if h2 : p.next_position < p.positional.length then
          .ok (some (.error (.MissingPositional
                 (p.positional.get ⟨p.next_position, h2⟩))),
               { p with finished := true })
        else
          match p.trail with
          | some .OnePlus =>
            if p.trail_args_found = 0 then
              .ok (some (.error .MissingTrail), { p with finished := true })
            else
              .ok (none, { p with finished := true })
          | _ => .ok (none, { p with finished := true })

/-- Runs `n` steps of the parse, collecting each step's outcome.
A crash ends the trace. -/
def runTrace (p : Parse) : Nat → List (Except Crash (Option (Except ParseError Arg)))
  | 0 => []
  | n + 1 =>
    match p.next with
    | .ok (r, p') => .ok r :: runTrace p' n
    | .error c => [.error c]

/-- The step outcomes of a full parse started from the given definitions,
or the definition error. -/
def traceOf (expected : List ArgDef) (args : List String) (n : Nat) :
    Except DefinitionError (List (Except Crash (Option (Except ParseError Arg)))) :=
  (Parse.new expected args).map (fun p => runTrace p n)

/-! ## Concrete definition sets used in the specification's scenarios -/

/-- Switches `a`/`'a'` and `b`/`'b'`. -/
def defsAB : List ArgDef :=
  [⟨.Switch (.LongAndShort "a" 'a'), none⟩,
   ⟨.Switch (.LongAndShort "b" 'b'), none⟩]

/-- Scenario D definitions: switches `a`, `b` and option `c`/`'c'`. -/
def defsABC : List ArgDef :=
  defsAB ++ [⟨.Option (.LongAndShort "c" 'c') none, none⟩]

/-- Scenario C definitions: option `exclude`/`'x'`. -/
def defsExclude : List ArgDef :=
  [⟨.Option (.LongAndShort "exclude" 'x') none, none⟩]

/-- Scenario B definitions: positional `foo`. -/
def defsFoo : List ArgDef := [⟨.Positional "foo", none⟩]

/-- Scenario A definitions: positional `foo`, required trail,
switch `verbose`/`'v'`. -/
def defsScenarioA : List ArgDef :=
  [⟨.Positional "foo", none⟩,
   ⟨.Trail .OnePlus none, none⟩,
   ⟨.Switch (.LongAndShort "verbose" 'v'), none⟩]

/-- The long names of the Switch/Option definitions, in input order. -/
def defLongNames : List ArgDef → List String
  | [] => []
  | d :: rest =>
    match d.deftype with
    | .Switch name => name.borrow_long :: defLongNames rest
    | .Option name _ => name.borrow_long :: defLongNames rest
    | _ => defLongNames rest

/-- The short aliases of the Switch/Option definitions, in input order. -/
def defShorts : List ArgDef → List Char
  | [] => []
  | d :: rest =>
    match d.deftype with
    | .Switch (.LongAndShort _ c) => c :: defShorts rest
    | .Option (.LongAndShort _ c) _ => c :: defShorts rest
    | _ => defShorts rest

/-- The names of the positional definitions, in input order. -/
def defPositionals : List ArgDef → List String
  | [] => []
  | d :: rest =>
    match d.deftype with
    | .Positional n => n :: defPositionals rest
    | _ => defPositionals rest

/-- How many trail definitions the list contains. -/
def defTrailCount : List ArgDef → Nat
  | [] => 0
  | d :: rest =>
    match d.deftype with
    | .Trail _ _ => defTrailCount rest + 1
    | _ => defTrailCount rest

/-- The parse state compiled from the Scenario B definitions (positional
`foo`) and an empty token list. -/
def pFoo : Parse :=
  { args := [], index := 0, finished := false, positional := ["foo"],
    next_position := 0, trail := none, trail_args_found := 0,
    options := [], aliases := [], remaining_grouped_shorts := [] }

/-- The parse state compiled from `defsExclude` over `["-x"]`, right after
the engine has consumed the `-x` token and resolved it to `exclude`. -/
def pAfterX : Parse :=
  { args := ["-x"], index := 1, finished := false, positional := [],
    next_position := 0, trail := none, trail_args_found := 0,
    options := [("exclude", OptType.Option)], aliases := [('x', "exclude")],
    remaining_grouped_shorts := [] }

/-- The invariant behind the engine's `expect("Invariant broken")` calls:
every long name stored as a value in the short-alias map is a key of the
long-name option-kind map. -/
def AliasInv (p : Parse) : Prop :=
  ∀ c n, assoc p.aliases c = some n → (assoc p.options n).isSome = true

/-- The same invariant on the compile loop's accumulator. -/
def BuildInv (st : BuildSt) : Prop :=
  ∀ c n, assoc st.aliases c = some n → (assoc st.options n).isSome = true

/-- The parse compiled from `defsABC` over `["val"]`. -/
def pABC : Parse :=
  { args := ["val"], index := 0, finished := false, positional := [],
    next_position := 0, trail := none, trail_args_found := 0,
    options := [("c", OptType.Option), ("b", OptType.Switch), ("a", OptType.Switch)],
    aliases := [('c', "c"), ('b', "b"), ('a', "a")],
    remaining_grouped_shorts := [] }


/-! ## Spec-modelled interrupt engine (C8)

The repository's newer engine revision consumes the `argdef.rs`
definitions, whose `ArgDefKind::Interrupt` carries a callback, and is
re-exported by `lib.rs` as `parse`/`parse_plain`; that engine's source is
absent from `src/` (only the declarations in `argdef.rs` and the callers
in `examples/` are present). The definitions below model it from the
spec's §4.2/§4.3 step rules. -/

/-- Modelled from the spec: the kind tag of a named flag definition in the
missing engine (`Switch`, `Option(takes one parameter)` or
`Interrupt(callback)`). -/
inductive SpecKind where
  | SwitchK
  | OptionK
  | InterruptK
deriving DecidableEq, Repr

/-- Modelled from the spec: the compiled definition set of the missing
engine — ordered positional slots, optional trail descriptor (`some true`
is a one-or-more trail), long-name-to-kind map, alias-to-long-name map. -/
structure SpecSet where
  positional : List String
  trailRequired : Option Bool
  kinds : List (String × SpecKind)
  aliases : List (Char × String)
deriving DecidableEq, Repr

/-- Modelled from the spec: a recognized-argument event of the missing
engine, including the `Interrupt` event. -/
inductive SpecEvent where
  | Positional (name value : String)
  | TrailValue (value : String)
  | Switch (name : String)
  | OptionArg (name value : String)
  | Interrupt (name : String)
deriving DecidableEq, Repr

/-- Modelled from the spec: the parse errors of the missing engine, named
as in spec §7. -/
inductive SpecError where
  | MissingPositional (name : String)
  | MissingTrail
  | UnexpectedPositional (tok : String)
  | UnknownShortArgument (c : Char) (tok : String)
  | UnknownLongArgument (tok : String)
  | MissingParameter (tok : String)
  | GroupedNonSwitch (c : Char) (tok : String)
deriving DecidableEq, Repr

/-- Modelled from the spec: how a run of the missing engine terminates —
normal completion, a terminal error, or the successful short-circuit of an
interrupt. -/
inductive SpecTerm where
  | done
  | err (e : SpecError)
  | interrupted (name : String)
deriving DecidableEq, Repr

/-- Modelled from the spec: the cursor of the missing engine — next
unfilled positional slot and trail values emitted so far. -/
structure SpecCursor where
  nextPos : Nat
  trailCount : Nat
deriving DecidableEq, Repr

/-- Modelled from the spec: the outcome of draining one grouped-short
token in the missing engine — all characters resolved to switches, an
interrupt hit, an error hit, or a final Option-kind character that may
claim the following token as its parameter. -/
inductive GroupRes where
  | events (evs : List SpecEvent)
  | interrupted (evs : List SpecEvent) (name : String)
  | failed (evs : List SpecEvent) (e : SpecError)
  | needsParam (evs : List SpecEvent) (name : String)
deriving DecidableEq, Repr

/-- Modelled from the spec: resolving the characters of one grouped-short
token, left to right (spec §4.2 steps 1 and 3): unknown alias errors,
an Option-kind character is only allowed in last position, an Interrupt
stops the group immediately. -/
def specGroup (s : SpecSet) (orig : String) : List Char → GroupRes
  | [] => .events []
  | c :: cs =>
    match assoc s.aliases c with
    | none => .failed [] (.UnknownShortArgument c orig)
    | some name =>
      match assoc s.kinds name with
      | none => .failed [] (.UnknownShortArgument c orig)
      | some .InterruptK => .interrupted [.Interrupt name] name
      | some .SwitchK =>
        match specGroup s orig cs with
        | .events evs => .events (.Switch name :: evs)
        | .interrupted evs n => .interrupted (.Switch name :: evs) n
        | .failed evs e => .failed (.Switch name :: evs) e
        | .needsParam evs n => .needsParam (.Switch name :: evs) n
      | some .OptionK =>
        match cs with
        | [] => .needsParam [] name
        | _ :: _ => .failed [] (.GroupedNonSwitch c orig)

/-- Modelled from the spec: the missing engine's run over a token list
(spec §4.2 steps 2-5 and §4.3), returning the emitted events, the
terminal outcome, and the unconsumed remainder. A matched Interrupt emits
its event and stops at once: the remaining tokens are returned unscanned
and the end-of-stream completeness checks of step 5 are never reached. -/
def specRun (s : SpecSet) (cur : SpecCursor) :
    List String → List SpecEvent × SpecTerm × List String
  | [] =>
    if h : cur.nextPos < s.positional.length then
      ([], .err (.MissingPositional (s.positional.get ⟨cur.nextPos, h⟩)), [])
    else if s.trailRequired = some true ∧ cur.trailCount = 0 then
      ([], .err .MissingTrail, [])
    else
      ([], .done, [])
  | t :: rest =>
    match t.data with
    | '-' :: '-' :: nm =>
      match assoc s.kinds (String.mk nm) with
      | none => ([], .err (.UnknownLongArgument t), rest)
      | some .InterruptK =>
        ([.Interrupt (String.mk nm)], .interrupted (String.mk nm), rest)
      | some .SwitchK =>
        match specRun s cur rest with
        | (evs, term, rem) => (.Switch (String.mk nm) :: evs, term, rem)
      | some .OptionK =>
        match rest with
        | [] => ([], .err (.MissingParameter t), [])
        | v :: rest2 =>
          if strStartsWith v "-" then
            ([], .err (.MissingParameter t), v :: rest2)
          else
            match specRun s cur rest2 with
            | (evs, term, rem) => (.OptionArg (String.mk nm) v :: evs, term, rem)
    | '-' :: c :: cs =>
      match specGroup s t (c :: cs) with
      | .events evs =>
        match specRun s cur rest with
        | (evs2, term, rem) => (evs ++ evs2, term, rem)
      | .interrupted evs n => (evs, .interrupted n, rest)
      | .failed evs e => (evs, .err e, rest)
      | .needsParam evs n =>
        match rest with
        | [] => (evs, .err (.MissingParameter t), [])
        | v :: rest2 =>
          if strStartsWith v "-" then
            (evs, .err (.MissingParameter t), v :: rest2)
          else
            match specRun s cur rest2 with
            | (evs2, term, rem) => (evs ++ .OptionArg n v :: evs2, term, rem)
    | _ =>
      if h : cur.nextPos < s.positional.length then
        match specRun s ⟨cur.nextPos + 1, cur.trailCount⟩ rest with
        | (evs, term, rem) =>
          (.Positional (s.positional.get ⟨cur.nextPos, h⟩) t :: evs, term, rem)
      else if s.trailRequired.isSome then
        match specRun s ⟨cur.nextPos, cur.trailCount + 1⟩ rest with
        | (evs, term, rem) => (.TrailValue t :: evs, term, rem)
      else
        ([], .err (.UnexpectedPositional t), rest)

/-- A spec-model definition set with an unfilled positional slot, a
required trail, a `help` interrupt and a `verbose` switch. -/
def specHelpSet : SpecSet :=
  { positional := ["foo"], trailRequired := some true,
    kinds := [("help", SpecKind.InterruptK), ("verbose", SpecKind.SwitchK)],
    aliases := [('h', "help"), ('v', "verbose")] }

end Argonaut

deriving instance DecidableEq for Except

namespace Argonaut

/-! ## Claim theorems -/

/-- Claim C1 (code bug): end-of-stream is *not* absorbing. On the compiled
set with switches `a` and `b` and tokens `["-ab"]`, the first step returns
`None` (the grouped-short branch stores its queue and falls through without
emitting, leaving `finished == false`), and the following steps still emit
`Switch("a")` and `Switch("b")`. The claim says every call after a `None`
must also return `None`. -/
theorem c1_none_is_not_absorbing :
    traceOf defsAB ["-ab"] 4
      = .ok [.ok none,
             .ok (some (.ok (.Switch "a"))),
             .ok (some (.ok (.Switch "b"))),
             .ok none]
    ∧ (Parse.new defsAB ["-ab"]).map
        (fun p => (p.next.map (fun r => r.2.finished)))
      = .ok (.ok false) := by
  exact ⟨rfl, rfl⟩

/-- Claim C2, counterexample: with switches `a`, `b`, option `c` and tokens
`["-abc", "val"]` the code does not emit
`Switch("a")`, `Switch("b")`, `Option("c","val")`, end-of-stream. Instead the
first step returns `None` (grouped token queued without emitting) and the
fourth errors with `GroupedNonSwitch('c', "-abc")`: the engine has no
last-position parameter rule for grouped shorts. -/
theorem c2_counterexample :
    traceOf defsABC ["-abc", "val"] 4
      = .ok [.ok none,
             .ok (some (.ok (.Switch "a"))),
             .ok (some (.ok (.Switch "b"))),
             .ok (some (.error (.GroupedNonSwitch 'c' "-abc")))]
    ∧ traceOf defsABC ["-abc", "val"] 4
      ≠ .ok [.ok (some (.ok (.Switch "a"))),
             .ok (some (.ok (.Switch "b"))),
             .ok (some (.ok (.Option "c" "val"))),
             .ok none] := by
  exact ⟨rfl, by decide⟩

/-- Claim C2, amended: stepping `["-abc", "val"]` against switches `a`, `b`
and option `c` yields `None` first (the grouped token is queued without an
event), then `Switch("a")`, `Switch("b")`, then the error
`GroupedNonSwitch('c', "-abc")` — an Option-kind character inside a grouped
short token is always an error, even in last position — and afterwards the
parse is finished and keeps yielding `None`; `"val"` is never consumed. -/
theorem c2_grouped_shorts_actual_behaviour :
    traceOf defsABC ["-abc", "val"] 6
      = .ok [.ok none,
             .ok (some (.ok (.Switch "a"))),
             .ok (some (.ok (.Switch "b"))),
             .ok (some (.error (.GroupedNonSwitch 'c' "-abc"))),
             .ok none,
             .ok none] := rfl

/-- Claim C3, counterexample: with option `exclude`/`'x'` and tokens
`["-x"]`, the parse yields `MissingParameter("exclude")` — the error carries
the definition's long name, not the flag token `"-x"` the claim states. -/
theorem c3_counterexample :
    traceOf defsExclude ["-x"] 1
      = .ok [.ok (some (.error (.MissingParameter "exclude")))]
    ∧ traceOf defsExclude ["-x"] 1
      ≠ .ok [.ok (some (.error (.MissingParameter "-x")))] := by
  exact ⟨rfl, by decide⟩

/-- Claim C7: with positional `foo`, a required trail and switch
`verbose`/`'v'`, the tokens `["x","a","b","-v"]` produce exactly
`Positional("foo","x")`, `TrailValue("a")`, `TrailValue("b")`,
`Switch("verbose")` and then a clean end-of-stream that keeps repeating. -/
theorem c7_scenario_a_trace :
    traceOf defsScenarioA ["x", "a", "b", "-v"] 6
      = .ok [.ok (some (.ok (.Positional "foo" "x"))),
             .ok (some (.ok (.TrailPart "a"))),
             .ok (some (.ok (.TrailPart "b"))),
             .ok (some (.ok (.Switch "verbose"))),
             .ok none,
             .ok none] := rfl

/-- Claim C10 (code bug): a token consisting of exactly one dash makes the
step panic. `"-"` is neither a long flag nor a positional, so the engine
collects the characters after the dash — an empty vector — and indexes
`shorts[0]`, an out-of-bounds access. The step does not return normally. -/
theorem c10_single_dash_token_panics :
    (Parse.new [] ["-"]).map Parse.next = .ok (.error .outOfBounds) := rfl

/-- Claim C3, amended: whenever a long or short flag resolves to an
Option-kind definition and there is no following token — the argument list
is empty or already exhausted — or the following token starts with a dash,
`read_option` returns `MissingParameter` carrying the definition's *long
name* (the `name` argument passed at both call sites); and on Scenario C
(option `exclude`/`'x'`, tokens `["-x"]`) the parse accordingly yields
`MissingParameter("exclude")`. -/
theorem c3_missing_parameter_carries_long_name :
    (∀ (p : Parse) (name : String),
      (p.args.isEmpty = true ∨ p.args.length ≤ p.index
        ∨ (∃ s, p.args.get? p.index = some s ∧ strStartsWith s "-" = true)) →
      (p.read_option name OptType.Option).1 = .error (.MissingParameter name))
    ∧ traceOf defsExclude ["-x"] 1
      = .ok [.ok (some (.error (.MissingParameter "exclude")))] := by
  refine ⟨?_, rfl⟩
  intro p name h
  unfold Parse.read_option
  by_cases he : p.args.isEmpty
  · simp [he]
  · simp only [he, Bool.false_eq_true, if_false]
    by_cases hlt : p.index < p.args.length
    · rcases h with h | h | ⟨s, hs, hdash⟩
      · exact absurd h he
      · omega
      · rw [List.get?_eq_get hlt] at hs
        simp only [dif_pos hlt, Option.some.injEq] at hs ⊢
        rw [← hs] at hdash
        rw [List.get_eq_getElem] at hdash
        simp [hdash]
    · simp [dif_neg hlt]

/-- Witness for the amended C3: in the state right after consuming `-x`
there is no following token, and the error carries `"exclude"`. -/
theorem c3_missing_parameter_witness :
    (pAfterX.read_option "exclude" OptType.Option).1
      = .error (.MissingParameter "exclude") :=
  c3_missing_parameter_carries_long_name.1 pAfterX "exclude"
    (Or.inr (Or.inl (by decide)))

/-- Claim C4: when a step begins with the machine not finished, no pending
grouped-short characters and no tokens left, it reports — in this order —
`MissingPositional` with the next unfilled slot's name, else `MissingTrail`
when a one-or-more trail is defined and no trail value was ever emitted,
else a clean end-of-stream; in every case the machine becomes finished. -/
theorem c4_end_of_stream (p : Parse) (hf : p.finished = false)
    (hg : p.remaining_grouped_shorts = []) (hi : p.args.length ≤ p.index) :
    Parse.next p = .ok
      ((if h2 : p.next_position < p.positional.length then
          some (.error (.MissingPositional (p.positional.get ⟨p.next_position, h2⟩)))
        else match p.trail with
          | some TrailType.OnePlus =>
            if p.trail_args_found = 0 then some (.error .MissingTrail) else none
          | _ => none),
       { p with finished := true }) := by
  have hlt : ¬ p.index < p.args.length := by omega
  unfold Parse.next
  rw [hf, hg]
  simp only [vecPop, Bool.false_eq_true, if_false, hlt, dif_neg, not_false_iff]
  split
  · rfl
  · split
    · split <;> rfl
    · rfl

/-- Witness for C4 at Scenario B: the parse compiled from positional `foo`
and an empty token list is `pFoo`, and its first step yields
`MissingPositional("foo")`. -/
theorem c4_end_of_stream_witness :
    Parse.new defsFoo [] = .ok pFoo
    ∧ Parse.next pFoo
        = .ok (some (.error (.MissingPositional "foo")), { pFoo with finished := true }) :=
  ⟨rfl, by rw [c4_end_of_stream pFoo rfl rfl (by decide)]; rfl⟩

/-- Helper for C5: if the definitions still to be processed have long
names, short aliases and positional names that are duplicate-free and
disjoint from what the accumulator has already registered, and at most one
trail remains possible, the compile loop succeeds and appends the
positional names in input order. -/
theorem buildLoop_ok (defs : List ArgDef) (st : BuildSt)
    (h1 : (defLongNames defs).Nodup)
    (h1d : ∀ n ∈ defLongNames defs, n ∉ st.used_names)
    (h2 : (defShorts defs).Nodup)
    (h2d : ∀ c ∈ defShorts defs, assoc st.aliases c = none)
    (h3 : (defPositionals defs).Nodup)
    (h3d : ∀ n ∈ defPositionals defs, n ∉ st.used_positional_names)
    (h4 : defTrailCount defs + (if st.trail.isSome then 1 else 0) ≤ 1) :
    ∃ st', buildLoop defs st = .ok st'
      ∧ st'.positional = st.positional ++ defPositionals defs := by
  induction defs generalizing st with
  | nil => exact ⟨st, rfl, by simp [defPositionals]⟩
  | cons d rest ih =>
    match hd : d.deftype with
    | .Positional name =>
      simp only [defLongNames, defShorts, defPositionals, defTrailCount, hd,
        List.nodup_cons, List.mem_cons] at h1 h1d h2 h2d h3 h3d h4 ⊢
      have hmem : name ∉ st.used_positional_names := h3d name (Or.inl rfl)
      obtain ⟨st', hok, hpos⟩ := ih
        { st with positional := st.positional ++ [name],
                  used_positional_names := name :: st.used_positional_names }
        h1 h1d h2 h2d h3.2
        (by intro n hn
            simp only [List.mem_cons]
            push_neg
            exact ⟨fun he => h3.1 (he ▸ hn), h3d n (Or.inr hn)⟩)
        h4
      refine ⟨st', ?_, ?_⟩
      · simp only [buildLoop, hd, hmem, if_neg, ite_false]
        simpa using hok
      · rw [hpos]
        simp
    | .Trail t param =>
      simp only [defLongNames, defShorts, defPositionals, defTrailCount, hd]
        at h1 h1d h2 h2d h3 h3d h4 ⊢
      have hnone : st.trail = none := by
        cases htr : st.trail with
        | none => rfl
        | some x => rw [htr] at h4; simp at h4
      obtain ⟨st', hok, hpos⟩ := ih { st with trail := some t }
        h1 h1d h2 h2d h3 h3d (by rw [hnone] at h4; simp at h4 ⊢; omega)
      refine ⟨st', ?_, by simpa using hpos⟩
      simp only [buildLoop, hd, hnone]
      simpa using hok
    | .Switch name =>
      simp only [defLongNames, defPositionals, defTrailCount, hd,
        List.nodup_cons, List.mem_cons] at h1 h1d h3 h3d h4 ⊢
      have hmem : name.borrow_long ∉ st.used_names := h1d name.borrow_long (Or.inl rfl)
      cases name with
      | Long long =>
        simp only [defShorts, hd] at h2 h2d
        simp only [OptName.borrow_long] at hmem h1 h1d ⊢
        obtain ⟨st', hok, hpos⟩ := ih
          { st with used_names := long :: st.used_names,
                    options := (long, OptType.Switch) :: st.options }
          h1.2
          (by intro n hn
              simp only [List.mem_cons]
              push_neg
              exact ⟨fun he => h1.1 (he ▸ hn), h1d n (Or.inr hn)⟩)
          h2 h2d h3 h3d h4
        refine ⟨st', ?_, by simpa using hpos⟩
        simp only [buildLoop, hd, add_name, hmem, if_neg, ite_false]
        simpa [OptName.borrow_long] using hok
      | LongAndShort long c =>
        simp only [defShorts, hd, List.nodup_cons, List.mem_cons] at h2 h2d
        simp only [OptName.borrow_long] at hmem h1 h1d ⊢
        have halias : assoc st.aliases c = none := h2d c (Or.inl rfl)
        obtain ⟨st', hok, hpos⟩ := ih
          { st with used_names := long :: st.used_names,
                    aliases := (c, long) :: st.aliases,
                    options := (long, OptType.Switch) :: st.options }
          h1.2
          (by intro n hn
              simp only [List.mem_cons]
              push_neg
              exact ⟨fun he => h1.1 (he ▸ hn), h1d n (Or.inr hn)⟩)
          h2.2
          (by intro c' hc
              simp only [assoc]
              rw [if_neg (by intro he; subst he; exact h2.1 hc)]
              exact h2d c' (Or.inr hc))
          h3 h3d h4
        refine ⟨st', ?_, by simpa using hpos⟩
        simp only [buildLoop, hd, add_name, hmem, if_neg, ite_false, halias]
        simpa [OptName.borrow_long] using hok
    | .Option name param =>
      simp only [defLongNames, defPositionals, defTrailCount, hd,
        List.nodup_cons, List.mem_cons] at h1 h1d h3 h3d h4 ⊢
      have hmem : name.borrow_long ∉ st.used_names := h1d name.borrow_long (Or.inl rfl)
      cases name with
      | Long long =>
        simp only [defShorts, hd] at h2 h2d
        simp only [OptName.borrow_long] at hmem h1 h1d ⊢
        obtain ⟨st', hok, hpos⟩ := ih
          { st with used_names := long :: st.used_names,
                    options := (long, OptType.Option) :: st.options }
          h1.2
          (by intro n hn
              simp only [List.mem_cons]
              push_neg
              exact ⟨fun he => h1.1 (he ▸ hn), h1d n (Or.inr hn)⟩)
          h2 h2d h3 h3d h4
        refine ⟨st', ?_, by simpa using hpos⟩
        simp only [buildLoop, hd, add_name, hmem, if_neg, ite_false]
        simpa [OptName.borrow_long] using hok
      | LongAndShort long c =>
        simp only [defShorts, hd, List.nodup_cons, List.mem_cons] at h2 h2d
        simp only [OptName.borrow_long] at hmem h1 h1d ⊢
        have halias : assoc st.aliases c = none := h2d c (Or.inl rfl)
        obtain ⟨st', hok, hpos⟩ := ih
          { st with used_names := long :: st.used_names,
                    aliases := (c, long) :: st.aliases,
                    options := (long, OptType.Option) :: st.options }
          h1.2
          (by intro n hn
              simp only [List.mem_cons]
              push_neg
              exact ⟨fun he => h1.1 (he ▸ hn), h1d n (Or.inr hn)⟩)
          h2.2
          (by intro c' hc
              simp only [assoc]
              rw [if_neg (by intro he; subst he; exact h2.1 hc)]
              exact h2d c' (Or.inr hc))
          h3 h3d h4
        refine ⟨st', ?_, by simpa using hpos⟩
        simp only [buildLoop, hd, add_name, hmem, if_neg, ite_false, halias]
        simpa [OptName.borrow_long] using hok

/-- Claim C5: over any definition list whose long names are distinct, whose
short aliases are distinct, whose positional names are distinct and which
contains at most one trail, `Parse::new` succeeds — returning a complete
parse value, never a partial one — and the compiled ordered positional slot
list equals the positional definitions in input order. -/
theorem c5_compile_preserves_positional_order (defs : List ArgDef) (args : List String)
    (h1 : (defLongNames defs).Nodup) (h2 : (defShorts defs).Nodup)
    (h3 : (defPositionals defs).Nodup) (h4 : defTrailCount defs ≤ 1) :
    ∃ p, Parse.new defs args = .ok p ∧ p.positional = defPositionals defs := by
  obtain ⟨st', hok, hpos⟩ := buildLoop_ok defs ⟨[], [], none, [], [], []⟩
    h1 (by simp) h2 (by intro c hc; rfl) h3 (by simp) (by simpa using h4)
  refine ⟨{ args := args, index := 0, finished := false,
            positional := st'.positional, next_position := 0,
            trail := st'.trail, trail_args_found := 0,
            options := st'.options, aliases := st'.aliases,
            remaining_grouped_shorts := [] }, ?_, ?_⟩
  · unfold Parse.new
    rw [hok]
  · simpa using hpos

/-- Witness for C5 at the Scenario A definitions: compilation succeeds and
the positional slot order is `["foo"]`. -/
theorem c5_compile_witness :
    ∃ p, Parse.new defsScenarioA ["x"] = .ok p ∧ p.positional = ["foo"] :=
  c5_compile_preserves_positional_order defsScenarioA ["x"]
    (by decide) (by decide) (by decide) (by decide)

/-- Claim C6: each structurally invalid definition list is rejected with
the matching error — a repeated long name with `OptionDefinedTwice(name)`,
a short alias already mapped to a different long name with
`SameShortName(newName, existingName)`, a repeated positional name with
`PositionalDefinedTwice(name)`, and a second trail with `TwoTrailsDefined`
— and `Parse::new` returns only the error, never a partial set. -/
theorem c6_definition_errors :
    (∀ (n : String) (args : List String),
      Parse.new [⟨.Switch (.Long n), none⟩, ⟨.Switch (.Long n), none⟩] args
        = .error (.OptionDefinedTwice n))
    ∧ (∀ (n m : String) (c : Char) (args : List String), n ≠ m →
      Parse.new [⟨.Switch (.LongAndShort n c), none⟩,
                 ⟨.Switch (.LongAndShort m c), none⟩] args
        = .error (.SameShortName m n))
    ∧ (∀ (n : String) (args : List String),
      Parse.new [⟨.Positional n, none⟩, ⟨.Positional n, none⟩] args
        = .error (.PositionalDefinedTwice n))
    ∧ (∀ (t1 t2 : TrailType) (args : List String),
      Parse.new [⟨.Trail t1 none, none⟩, ⟨.Trail t2 none, none⟩] args
        = .error .TwoTrailsDefined) := by
  refine ⟨?_, ?_, ?_, ?_⟩
  · intro n args
    simp [Parse.new, buildLoop, add_name]
  · intro n m c args hne
    simp [Parse.new, buildLoop, add_name, assoc, Ne.symm hne]
  · intro n args
    simp [Parse.new, buildLoop]
  · intro t1 t2 args
    simp [Parse.new, buildLoop]

/-- Witness for C6: `verbose`/`'v'` followed by `version`/`'v'` is rejected
with `SameShortName("version", "verbose")`. -/
theorem c6_definition_errors_witness :
    Parse.new [⟨.Switch (.LongAndShort "verbose" 'v'), none⟩,
               ⟨.Switch (.LongAndShort "version" 'v'), none⟩] []
      = .error (.SameShortName "version" "verbose") :=
  c6_definition_errors.2.1 "verbose" "version" 'v' [] (by decide)

/-- Helper for C9: on success `add_name` either leaves the alias map
unchanged or prepends one entry mapping the new short to the definition's
long name. -/
theorem add_name_aliases (name : OptName) (al : List (Char × String)) (un : List String)
    (a : List (Char × String)) (u : List String)
    (h : add_name name al un = .ok (a, u)) :
    a = al ∨ ∃ c, a = (c, name.borrow_long) :: al := by
  cases name with
  | Long l =>
    by_cases hmem : l ∈ un
    · simp [add_name, hmem] at h
    · simp [add_name, hmem] at h
      exact Or.inl h.1.symm
  | LongAndShort l c =>
    by_cases hmem : l ∈ un
    · simp [add_name, hmem] at h
    · cases hal : assoc al c with
      | some o => simp [add_name, hmem, hal] at h
      | none =>
        simp [add_name, hmem, hal] at h
        exact Or.inr ⟨c, h.1.symm⟩

/-- Helper for C9: the compile loop preserves the alias/options
invariant on its accumulator. -/
theorem buildLoop_inv (defs : List ArgDef) (st st' : BuildSt)
    (hok : buildLoop defs st = .ok st') (hinv : BuildInv st) : BuildInv st' := by
  induction defs generalizing st with
  | nil =>
    simp only [buildLoop, Except.ok.injEq] at hok
    exact hok ▸ hinv
  | cons d rest ih =>
    unfold buildLoop at hok
    split at hok
    · split at hok
      · cases hok
      · exact ih _ hok (fun c n hc => hinv c n hc)
    · split at hok
      · cases hok
      · exact ih _ hok (fun c n hc => hinv c n hc)
    · rename_i name heq
      cases ha : add_name name st.aliases st.used_names with
      | error e => rw [ha] at hok; cases hok
      | ok au =>
        rw [ha] at hok
        obtain ⟨a, u⟩ := au
        refine ih _ hok ?_
        intro c n hc
        rcases add_name_aliases name st.aliases st.used_names a u ha with rfl | ⟨c0, rfl⟩
        · simp only [assoc]
          split
          · rfl
          · exact hinv c n hc
        · simp only [assoc] at hc ⊢
          split at hc
          · simp only [Option.some.injEq] at hc
            subst hc
            simp
          · split
            · rfl
            · exact hinv c n hc
    · rename_i name param heq
      cases ha : add_name name st.aliases st.used_names with
      | error e => rw [ha] at hok; cases hok
      | ok au =>
        rw [ha] at hok
        obtain ⟨a, u⟩ := au
        refine ih _ hok ?_
        intro c n hc
        rcases add_name_aliases name st.aliases st.used_names a u ha with rfl | ⟨c0, rfl⟩
        · simp only [assoc]
          split
          · rfl
          · exact hinv c n hc
        · simp only [assoc] at hc ⊢
          split at hc
          · simp only [Option.some.injEq] at hc
            subst hc
            simp
          · split
            · rfl
            · exact hinv c n hc

/-- Helper for C9: `read_option` never changes the option or alias maps. -/
theorem read_option_preserves_maps (p : Parse) (name : String) (t : OptType) :
    ((p.read_option name t).2).options = p.options
    ∧ ((p.read_option name t).2).aliases = p.aliases := by
  unfold Parse.read_option
  cases t
  · exact ⟨rfl, rfl⟩
  · repeat (first | exact ⟨rfl, rfl⟩ | split)

/-- Helper for C9: a normally returning step never changes the option or
alias maps. -/
theorem next_preserves_maps (p : Parse) (r : Option (Except ParseError Arg)) (p' : Parse)
    (h : Parse.next p = .ok (r, p')) :
    p'.options = p.options ∧ p'.aliases = p.aliases := by
  unfold Parse.next at h
  repeat
    first
    | exact Except.noConfusion h
    | (simp only [Except.ok.injEq, Prod.mk.injEq] at h
       obtain ⟨-, rfl⟩ := h
       first
       | exact ⟨rfl, rfl⟩
       | exact ⟨(read_option_preserves_maps _ _ _).1,
                (read_option_preserves_maps _ _ _).2⟩)
    | split at h

/-- Helper for C9: a successful `Parse::new` establishes the invariant. -/
theorem new_alias_inv (defs : List ArgDef) (args : List String) (p : Parse)
    (h : Parse.new defs args = .ok p) : AliasInv p := by
  unfold Parse.new at h
  cases hb : buildLoop defs ⟨[], [], none, [], [], []⟩ with
  | error e => rw [hb] at h; exact Except.noConfusion h
  | ok st =>
    rw [hb] at h
    simp only [Except.ok.injEq] at h
    subst h
    intro c n hc
    exact buildLoop_inv defs _ st hb
      (by intro c' n' hc'; simp [assoc] at hc') c n hc

/-- Helper for C9: under the invariant the two
`expect("Invariant broken")` branches are unreachable. -/
theorem next_no_invariant_crash (p : Parse) (hinv : AliasInv p) :
    Parse.next p ≠ .error .invariantBroken := by
  intro h
  unfold Parse.next at h
  repeat
    first
    | exact Except.noConfusion h
    | (injection h with h2; exact Crash.noConfusion h2)
    | split at h
    | exact absurd (hinv _ _ (by assumption)) (by simp [*])

/-- Claim C9: `Parse::new` establishes the alias-map invariant, every
normally returning `next` step preserves it, and under it the step can
never crash through the `expect("Invariant broken")` branches. -/
theorem c9_alias_invariant :
    (∀ (defs : List ArgDef) (args : List String) (p : Parse),
       Parse.new defs args = .ok p → AliasInv p)
    ∧ (∀ (p p' : Parse) (r : Option (Except ParseError Arg)),
       Parse.next p = .ok (r, p') → AliasInv p → AliasInv p')
    ∧ (∀ p : Parse, AliasInv p → Parse.next p ≠ .error .invariantBroken) := by
  refine ⟨new_alias_inv, ?_, next_no_invariant_crash⟩
  intro p p' r h hinv c n hc
  obtain ⟨ho, ha⟩ := next_preserves_maps p r p' h
  rw [ha] at hc
  rw [ho]
  exact hinv c n hc

/-- Witness for C9 at the compiled Scenario D definitions. -/
theorem c9_alias_invariant_witness :
    AliasInv pABC ∧ Parse.next pABC ≠ .error .invariantBroken := by
  have h1 : AliasInv pABC := c9_alias_invariant.1 defsABC ["val"] pABC rfl
  exact ⟨h1, c9_alias_invariant.2.2 pABC h1⟩

/-- Claim C8 (settled against the spec-modelled engine): when an
Interrupt-kind definition is matched — by long name, by short alias
(`c ≠ '-'` says the token has exactly one leading dash), or inside a
grouped short token — its event is emitted and the run terminates as
`interrupted`, a successful short-circuit rather than an error; the
remaining tokens are returned verbatim without being scanned, and since
the definition set and cursor are arbitrary (unfilled positional slots
and an empty required trail included), the `MissingPositional`/
`MissingTrail` completeness checks are never evaluated. -/
theorem c8_interrupt_short_circuits :
    (∀ (s : SpecSet) (cur : SpecCursor) (t name : String) (rest : List String),
       t.data = '-' :: '-' :: name.data →
       assoc s.kinds name = some SpecKind.InterruptK →
       specRun s cur (t :: rest) = ([.Interrupt name], .interrupted name, rest))
    ∧ (∀ (s : SpecSet) (cur : SpecCursor) (t : String) (c : Char) (name : String)
         (rest : List String),
       t.data = ['-', c] → c ≠ '-' →
       assoc s.aliases c = some name →
       assoc s.kinds name = some SpecKind.InterruptK →
       specRun s cur (t :: rest) = ([.Interrupt name], .interrupted name, rest))
    ∧ (∀ (s : SpecSet) (cur : SpecCursor) (t : String) (c1 c2 : Char) (n1 n2 : String)
         (rest : List String),
       t.data = ['-', c1, c2] → c1 ≠ '-' →
       assoc s.aliases c1 = some n1 →
       assoc s.kinds n1 = some SpecKind.SwitchK →
       assoc s.aliases c2 = some n2 →
       assoc s.kinds n2 = some SpecKind.InterruptK →
       specRun s cur (t :: rest)
         = ([.Switch n1, .Interrupt n2], .interrupted n2, rest)) := by
  refine ⟨?_, ?_, ?_⟩
  · intro s cur t name rest ht hk
    obtain ⟨cs⟩ := t
    obtain ⟨nd⟩ := name
    subst ht
    simp [specRun, hk]
  · intro s cur t c name rest ht hc ha hk
    obtain ⟨cs⟩ := t
    subst ht
    simp [specRun, specGroup, hc, ha, hk]
  · intro s cur t c1 c2 n1 n2 rest ht hc1 ha1 hk1 ha2 hk2
    obtain ⟨cs⟩ := t
    subst ht
    simp [specRun, specGroup, hc1, ha1, hk1, ha2, hk2]

/-- Witness for C8: `--help` interrupts at once with the remainder
`["xyz"]` untouched, even though the same set over an empty token list
would report `MissingPositional("foo")` — the completeness checks are
skipped, not satisfied. -/
theorem c8_interrupt_witness :
    specRun specHelpSet ⟨0, 0⟩ ["--help", "xyz"]
      = ([.Interrupt "help"], .interrupted "help", ["xyz"])
    ∧ specRun specHelpSet ⟨0, 0⟩ []
      = ([], .err (.MissingPositional "foo"), []) :=
  ⟨c8_interrupt_short_circuits.1 specHelpSet ⟨0, 0⟩ "--help" "help" ["xyz"] rfl rfl,
   rfl⟩


end Argonaut
